import Mathlib

/-! # KDP_Builder: formal model and verification

Shallow embedding of:
* `web/frontend/src/store/designStore.ts` (the Zustand design store),
* `web/frontend/src/App.tsx` (AI-suggest ingestion and the learn-from-PDF
  request parameters),
* the documented extract-API defaults of `AI_README.md`,
* the document-layout extraction and fusion engine. The engine's Python
  sources (`web/backend/services/ai_vision.py`, `block_extractor.py`) are
  stripped from the public repository, so those components are modelled
  from the specification text; every such definition is marked
  `Modelled from the spec`.

JavaScript numbers are modelled as rationals; property records
(`Record<string, any>`) as association lists whose lookup takes the first
matching key, with opaque values modelled as strings. -/

namespace KDP

/-- Axis-aligned bounding box in page coordinates (x, y, width, height),
with integer coordinates. -/
structure Box where
  x : ℤ
  y : ℤ
  w : ℤ
  h : ℤ
deriving DecidableEq

/-- Length of the overlap of two intervals given by start and length. -/
def interLen (a la b lb : ℤ) : ℤ := max 0 (min (a + la) (b + lb) - max a b)

/-- Area of a box. -/
def Box.area (b : Box) : ℤ := b.w * b.h

/-- Intersection area of two boxes. -/
def interArea (a b : Box) : ℤ := interLen a.x a.w b.x b.w * interLen a.y a.h b.y b.h

/-- Union area of two boxes. -/
def unionArea (a b : Box) : ℤ := a.area + b.area - interArea a b

/-- Intersection-over-Union of two boxes, as a rational number; 0 when
the union is degenerate. -/
def iouQ (a b : Box) : ℚ :=
  if unionArea a b ≤ 0 then 0 else (interArea a b : ℚ) / (unionArea a b : ℚ)

/-- Executable comparison `t ≤ iouQ a b`, by cross-multiplication so
that it evaluates over the integers. -/
def iouGeB (t : ℚ) (a b : Box) : Bool :=
  if unionArea a b ≤ 0 then decide (t ≤ 0)
  else decide (t.num * unionArea a b ≤ interArea a b * (t.den : ℤ))

/-- Executable comparison `t < iouQ a b`, by cross-multiplication so
that it evaluates over the integers. -/
def iouGtB (t : ℚ) (a b : Box) : Bool :=
  if unionArea a b ≤ 0 then decide (t < 0)
  else decide (t.num * unionArea a b < interArea a b * (t.den : ℤ))

/-! ## Design store (`web/frontend/src/store/designStore.ts`) -/

/-- `ElementType` union from `types/design.ts`. -/
inductive ElementType
  | text | rectangle | circle | line | image | checkbox
deriving DecidableEq

/-- `Tool` union from `types/design.ts`. -/
inductive Tool
  | select | text | rectangle | circle | line | pan
deriving DecidableEq

/-- `DesignElement` from `types/design.ts`; property values are opaque to
the store logic and modelled as strings. -/
structure DesignElement where
  id : String
  type : ElementType
  x : ℚ
  y : ℚ
  width : ℚ
  height : ℚ
  rotation : ℚ
  z_index : Int
  properties : List (String × String)
deriving DecidableEq

/-- `DesignPage` from `types/design.ts`. -/
structure DesignPage where
  page_number : Int
  elements : List DesignElement
  background_color : String
deriving DecidableEq

/-- `Design` from `types/design.ts`. -/
structure Design where
  id : Option String
  name : String
  page_width : ℚ
  page_height : ℚ
  pages : List DesignPage
  created_at : Option String
  updated_at : Option String
  metadata : List (String × String)
deriving DecidableEq

/-- `Partial<DesignElement>`: the `updates` argument of `updateElement`.
An absent field is `none`. -/
structure ElementUpdate where
  id : Option String := none
  type : Option ElementType := none
  x : Option ℚ := none
  y : Option ℚ := none
  width : Option ℚ := none
  height : Option ℚ := none
  rotation : Option ℚ := none
  z_index : Option Int := none
  properties : Option (List (String × String)) := none
deriving DecidableEq

/-- First-match lookup in a property record. -/
def lookupRec (k : String) (r : List (String × String)) : Option String :=
  (r.find? (fun kv => kv.1 == k)).map (fun kv => kv.2)

/-- JavaScript object spread of `cur` then `upd` at the lookup-observable
level: bindings of `upd` shadow bindings of `cur`. -/
def mergeRec (cur upd : List (String × String)) : List (String × String) :=
  upd ++ cur

/-- The merged element built by `updateElement` (designStore.ts lines
72-82): spread of the current element, then the updates, with
`properties` merged separately so that property keys absent from the
update are preserved. -/
def applyUpdate (e : DesignElement) (u : ElementUpdate) : DesignElement :=
  { id := u.id.getD e.id
    type := u.type.getD e.type
    x := u.x.getD e.x
    y := u.y.getD e.y
    width := u.width.getD e.width
    height := u.height.getD e.height
    rotation := u.rotation.getD e.rotation
    z_index := u.z_index.getD e.z_index
    properties := match u.properties with
      | some p => mergeRec e.properties p
      | none => e.properties }

/-- Replace the first element satisfying `p` by its image under `f`
(models `findIndex` followed by in-place assignment in `updateElement`). -/
def updateFirst (p : DesignElement → Bool) (f : DesignElement → DesignElement) :
    List DesignElement → List DesignElement
  | [] => []
  | e :: es => if p e then f e :: es else e :: updateFirst p f es

/-- The Zustand store state (`DesignState` in designStore.ts). The page
index is a natural number; deep copies via JSON round-trips are the
identity in this value semantics. -/
structure StoreState where
  design : Option Design
  currentPage : Nat
  selectedElements : List String
  activeTool : Tool
  history : List Design
  historyIndex : Int
deriving DecidableEq

/-- `saveToHistory` (designStore.ts lines 118-134): truncate the redo
tail, push a snapshot of the current design, drop the oldest snapshot
when more than 50 are held, and point `historyIndex` at the last slot. -/
def saveToHistory (s : StoreState) : StoreState :=
  match s.design with
  | none => s
  | some d =>
    let trimmed := s.history.take (s.historyIndex + 1).toNat
    let pushed := trimmed ++ [d]
    let newHistory := if 50 < pushed.length then pushed.drop 1 else pushed
    { s with history := newHistory, historyIndex := (newHistory.length : Int) - 1 }

/-- `setDesign` (designStore.ts lines 45-48). -/
def setDesign (s : StoreState) (d : Design) : StoreState :=
  saveToHistory { s with design := some d, currentPage := 0 }

/-- `addElement` (designStore.ts lines 52-61). Accessing a missing page
would throw in TypeScript; it is modelled as leaving the state unchanged. -/
def addElement (s : StoreState) (el : DesignElement) : StoreState :=
  match s.design with
  | none => s
  | some d =>
    match d.pages[s.currentPage]? with
    | none => s
    | some pg =>
      let pg' := { pg with elements := pg.elements ++ [el] }
      saveToHistory { s with design := some { d with pages := d.pages.set s.currentPage pg' } }

/-- `updateElement` (designStore.ts lines 63-86): when some element of
the current page has the given id, replace the first such element by the
merged element and snapshot; otherwise leave the state unchanged. -/
def updateElement (s : StoreState) (eid : String) (u : ElementUpdate) : StoreState :=
  match s.design with
  | none => s
  | some d =>
    match d.pages[s.currentPage]? with
    | none => s
    | some pg =>
      if pg.elements.any (fun e => e.id == eid) then
        let els := updateFirst (fun e => e.id == eid) (fun e => applyUpdate e u) pg.elements
        let pg' := { pg with elements := els }
        saveToHistory { s with design := some { d with pages := d.pages.set s.currentPage pg' } }
      else s

/-- `deleteElement` (designStore.ts lines 88-98): filter out every
element of the current page whose id equals the given id, clear the
selection, and snapshot. -/
def deleteElement (s : StoreState) (eid : String) : StoreState :=
  match s.design with
  | none => s
  | some d =>
    match d.pages[s.currentPage]? with
    | none => s
    | some pg =>
      let pg' := { pg with elements := pg.elements.filter (fun e => e.id != eid) }
      saveToHistory { s with
        design := some { d with pages := d.pages.set s.currentPage pg' },
        selectedElements := [] }

/-- The history invariant asserted by the claims: at most 50 snapshots
and the index points at the last one. -/
def historyInv (s : StoreState) : Prop :=
  s.history.length ≤ 50 ∧ s.historyIndex = (s.history.length : Int) - 1

/-! ## Extraction and fusion engine

Modelled from the spec: the Python sources (`ai_vision.py`,
`block_extractor.py`) are stripped from the public repository; the
definitions below follow the specification's component design (sections
4.3-4.6) and data model. -/

/-- Modelled from the spec: primitive kinds (data model, section 3);
kind-specific attributes are omitted as no claim touches them. -/
inductive PrimKind
  | text_run | line | rectangle
deriving DecidableEq

/-- Modelled from the spec: an atomic ground-truth geometric fact
extracted from the page (data model, section 3). -/
structure Primitive where
  kind : PrimKind
  bbox : Box
deriving DecidableEq

/-- Modelled from the spec: class labels of the geometric region
detector (section 4.3). -/
inductive GClass
  | table | text_region | title | cell
deriving DecidableEq

/-- Modelled from the spec: a candidate region proposed by the geometric
detector, in page space (section 3). -/
structure Detection where
  cls : GClass
  box : Box
  conf : ℚ
deriving DecidableEq

/-- Modelled from the spec: a raw tile-local detection together with the
page offset of its tile (section 4.3). -/
structure TileDet where
  tileOx : ℤ
  tileOy : ℤ
  box : Box
  cls : GClass
  conf : ℚ
deriving DecidableEq

/-- Modelled from the spec: remap a tile-local detection to full-page
coordinates by adding the tile's page offset; the tile identity is
discarded afterwards (sections 4.3 and 9). -/
def remap (t : TileDet) : Detection :=
  { cls := t.cls
    conf := t.conf
    box := { x := t.box.x + t.tileOx, y := t.box.y + t.tileOy, w := t.box.w, h := t.box.h } }

/-- Modelled from the spec: insert a detection into a list sorted by
decreasing confidence. -/
def insertByConf (d : Detection) : List Detection → List Detection
  | [] => [d]
  | e :: es => if e.conf ≤ d.conf then d :: e :: es else e :: insertByConf d es

/-- Modelled from the spec: sort detections by decreasing confidence
(non-maximum suppression considers the highest-confidence box first). -/
def sortByConf : List Detection → List Detection
  | [] => []
  | d :: ds => insertByConf d (sortByConf ds)

/-- Modelled from the spec: greedy non-maximum suppression on a
confidence-sorted list; a kept box suppresses every later box whose IoU
with it reaches `thr` (section 4.3). The fuel is an upper bound on the
list length, so the base case with exhausted fuel is never reached. -/
def nmsGo (thr : ℚ) : Nat → List Detection → List Detection
  | _, [] => []
  | 0, _ => []
  | fuel + 1, d :: rest =>
    d :: nmsGo thr fuel (rest.filter (fun e => !(iouGeB thr d.box e.box)))

/-- Modelled from the spec: merge duplicate detections using IoU at or
above the merge threshold, keeping the highest-confidence box among
merged duplicates (section 4.3). -/
def mergeDetections (thr : ℚ) (ds : List Detection) : List Detection :=
  nmsGo thr ds.length (sortByConf ds)

/-- Modelled from the spec: kinds of semantic-detector claims
(section 4.4 and AI_README: labeled_inputs, grid_headers,
checkbox_groups). -/
inductive SKind
  | labeled_input | grid_headers | checkbox_group
deriving DecidableEq

/-- Modelled from the spec: a semantic-detector claim carrying an
approximate box and a free-form label (section 4.4). -/
structure SClaim where
  kind : SKind
  box : Box
  label : String
deriving DecidableEq

/-- Modelled from the spec: the semantic detector's structured payload
(section 4.4); the optional page header title carries no box. -/
structure SemPayload where
  claims : List SClaim
  header_title : Option String
deriving DecidableEq

/-- Modelled from the spec: the explicit configuration surface of the
engine (section 6): page geometry, IoU thresholds for merge, grounding,
duplicate rejection and geometric corroboration, and the top-margin-band
fraction. -/
structure Config where
  pageW : ℤ
  pageH : ℤ
  mergeThr : ℚ
  groundThr : ℚ
  dupThr : ℚ
  corrThr : ℚ
  topFrac : ℚ
deriving DecidableEq

/-- Modelled from the spec: whether a box's vertical position falls
within the top margin band of the page (section 4.5, rule 3), i.e.
`b.y < topFrac * pageH`, compared by cross-multiplication. -/
def inTopBand (cfg : Config) (b : Box) : Bool :=
  decide (b.y * (cfg.topFrac.den : ℤ) < cfg.topFrac.num * cfg.pageH)

/-- Modelled from the spec: whether a box is corroborated by some
geometric detection (section 4.5, rule 3). -/
def corroborated (cfg : Config) (gdets : List Detection) (b : Box) : Bool :=
  gdets.any (fun d => iouGeB cfg.corrThr d.box b)

/-- Modelled from the spec: ground one semantic claim against the
primitives (section 4.5, rule 2): search for a rectangle primitive whose
IoU with the claimed box exceeds the grounding threshold; if found,
replace the claim's box with the primitive's exact box, otherwise
discard the claim. -/
def groundClaim (cfg : Config) (prims : List Primitive) (c : SClaim) : Option SClaim :=
  match prims.find? (fun p => p.kind == PrimKind.rectangle && iouGtB cfg.groundThr p.bbox c.box) with
  | some p => some { c with box := p.bbox }
  | none => none

/-- Modelled from the spec: ground all claims of a payload, keeping each
surviving claim paired with the original claim it came from (section
4.5, rule 2). -/
def groundClaims (cfg : Config) (prims : List Primitive) (cs : List SClaim) :
    List (SClaim × SClaim) :=
  cs.filterMap (fun c => (groundClaim cfg prims c).map (fun c' => (c, c')))

/-- Modelled from the spec: position-based pruning predicate (section
4.5, rule 3): a checkbox or labeled-input claim in the top margin band
is kept only when corroborated by the geometric detector; other claim
kinds pass. -/
def keepClaim (cfg : Config) (gdets : List Detection) (c : SClaim) : Bool :=
  if c.kind == SKind.checkbox_group || c.kind == SKind.labeled_input then
    !(inTopBand cfg c.box) || corroborated cfg gdets c.box
  else true

/-- Modelled from the spec: apply position-based pruning to the grounded
claim of each pair (section 4.5, rule 3). -/
def prunePairs (cfg : Config) (gdets : List Detection) (prs : List (SClaim × SClaim)) :
    List (SClaim × SClaim) :=
  prs.filter (fun pr => keepClaim cfg gdets pr.2)

/-- Modelled from the spec: block types (data model, section 3). -/
inductive BlockType
  | grid | header | checkbox_list | labeled_input | text_region
deriving DecidableEq

/-- Modelled from the spec: provenance of a block — the primitives,
detections and semantic claims that grounded it (data model, section 3). -/
inductive Provenance
  | prim (p : Primitive)
  | det (d : Detection)
  | sem (c : SClaim)
deriving DecidableEq

/-- Modelled from the spec: the emitted unit of structure (data model,
section 3); type-specific attributes are omitted as no claim touches
them. -/
structure Block where
  id : String
  type : BlockType
  bbox : Box
  page_index : Nat
  provenance : List Provenance
deriving DecidableEq

/-- Modelled from the spec: block type produced by a surviving semantic
claim (section 4.5, rules 4-5). -/
def claimBlockType : SKind → BlockType
  | SKind.labeled_input => BlockType.labeled_input
  | SKind.grid_headers => BlockType.grid
  | SKind.checkbox_group => BlockType.checkbox_list

/-- Modelled from the spec: promote a deduplicated geometric detection
to a candidate block (section 4.5, rules 4-5): tables become grids;
titles and text regions in the top margin band become headers; text
regions elsewhere become text-region blocks; cells are structure, not
blocks. -/
def detToBlock (cfg : Config) (d : Detection) : Option Block :=
  match d.cls with
  | GClass.table =>
    some { id := "", type := BlockType.grid, bbox := d.box, page_index := 0,
           provenance := [Provenance.det d] }
  | GClass.title =>
    if inTopBand cfg d.box then
      some { id := "", type := BlockType.header, bbox := d.box, page_index := 0,
             provenance := [Provenance.det d] }
    else none
  | GClass.text_region =>
    if inTopBand cfg d.box then
      some { id := "", type := BlockType.header, bbox := d.box, page_index := 0,
             provenance := [Provenance.det d] }
    else
      some { id := "", type := BlockType.text_region, bbox := d.box, page_index := 0,
             provenance := [Provenance.det d] }
  | GClass.cell => none

/-- Modelled from the spec: the candidate block of a grounded and pruned
semantic claim; its bbox is the grounded primitive's exact box and its
provenance records the original claim (sections 4.5-4.6). -/
def pairToBlock (pr : SClaim × SClaim) : Block :=
  { id := "", type := claimBlockType pr.2.kind, bbox := pr.2.box, page_index := 0,
    provenance := [Provenance.sem pr.1] }

/-- Modelled from the spec: the grounding invariant check enforced by
the assembler on every candidate block (data model invariant, section 3,
and section 8): some primitive's bbox has IoU at or above the grounding
threshold with the block's bbox. -/
def groundedB (cfg : Config) (prims : List Primitive) (b : Box) : Bool :=
  prims.any (fun p => iouGeB cfg.groundThr p.bbox b)

/-- Modelled from the spec: final overlap resolution (section 4.5,
rule 6): reject near-duplicate same-type blocks; the fuel is an upper
bound on the list length, so the base case with exhausted fuel is never
reached. -/
def resolveOverlap (thr : ℚ) : Nat → List Block → List Block
  | _, [] => []
  | 0, _ => []
  | fuel + 1, b :: rest =>
    b :: resolveOverlap thr fuel
      (rest.filter (fun c => !(b.type == c.type && iouGtB thr b.bbox c.bbox)))

/-- Modelled from the spec: the deterministic id of the i-th block of a
page (section 4.6). -/
def mkBlockId (page i : Nat) : String :=
  "block_" ++ Nat.repr page ++ "_" ++ Nat.repr i

/-- Modelled from the spec: the assembler assigns stable sequential ids
and the page index, preserving order (section 4.6). -/
def assignIds (page : Nat) : Nat → List Block → List Block
  | _, [] => []
  | i, b :: bs => { b with id := mkBlockId page i, page_index := page } :: assignIds page (i + 1) bs

/-- Modelled from the spec: fusion and block assembly for one page
(sections 4.5-4.6): ground and prune the semantic claims (geometric-only
fusion passes `none`), promote geometric detections, enforce the
grounding invariant on every candidate, resolve duplicate overlaps, and
assign deterministic ids. -/
def fusePage (cfg : Config) (page : Nat) (prims : List Primitive)
    (gdets : List Detection) (sem : Option SemPayload) : List Block :=
  let pairs := match sem with
    | none => []
    | some pl => prunePairs cfg gdets (groundClaims cfg prims pl.claims)
  let cands := gdets.filterMap (detToBlock cfg) ++ pairs.map pairToBlock
  let grounded := cands.filter (fun b => groundedB cfg prims b.bbox)
  assignIds page 0 (resolveOverlap cfg.dupThr grounded.length grounded)

/-- Modelled from the spec: recoverable semantic-detector failures
(sections 4.4 and 7). -/
inductive DetErr
  | timeout | unavailable | malformed
deriving DecidableEq

/-- Modelled from the spec: one page's input to the engine — primitives,
raw tile detections of the geometric pass, and the semantic detector's
outcome (sections 4.3-4.5). -/
structure PageInput where
  prims : List Primitive
  tdets : List TileDet
  sem : Except DetErr SemPayload

/-- Modelled from the spec: process one page (sections 4.3-4.6): remap
and merge the tiled geometric detections, then fuse; a semantic-detector
failure triggers geometric-only fusion for that page instead of failing
the page (sections 4.4 and 7). -/
def processPage (cfg : Config) (page : Nat) (inp : PageInput) : List Block :=
  let gdets := mergeDetections cfg.mergeThr (inp.tdets.map remap)
  match inp.sem with
  | Except.ok pl => fusePage cfg page inp.prims gdets (some pl)
  | Except.error _ => fusePage cfg page inp.prims gdets none

/-- Modelled from the spec: process the pages of a batch independently
starting at a given page index; per-page detector errors never abort the
batch (sections 5 and 7). -/
def processBatchFrom (cfg : Config) : Nat → List PageInput → List (List Block)
  | _, [] => []
  | i, inp :: rest => processPage cfg i inp :: processBatchFrom cfg (i + 1) rest

/-- Modelled from the spec: process a whole batch (sections 5 and 7). -/
def processBatch (cfg : Config) (inps : List PageInput) : List (List Block) :=
  processBatchFrom cfg 0 inps

/-! ## Editor front end (`web/frontend/src/App.tsx`, `AI_README.md`) -/

/-- The element id built by `handleAISuggest` (App.tsx line 161):
the interpolation of `Date.now()` (milliseconds) and `Math.random()`
(modelled by the string it prints as). -/
def makeElemId (now : Nat) (rand : String) : String :=
  "elem_" ++ Nat.repr now ++ "_" ++ rand

/-- An element of the AI backend's response consumed by
`handleAISuggest` (App.tsx lines 158-170). -/
structure AIElem where
  type : ElementType
  x : ℚ
  y : ℚ
  width : ℚ
  height : ℚ
  properties : List (String × String)
deriving DecidableEq

/-- The element pushed for one AI result element (App.tsx lines
160-170): the id interpolates the current time and a fresh random draw,
and the z-index is the current element count of the page. -/
def mkAIElement (tr : Nat × String) (z : Nat) (e : AIElem) : DesignElement :=
  { id := makeElemId tr.1 tr.2
    type := e.type
    x := e.x
    y := e.y
    width := e.width
    height := e.height
    rotation := 0
    z_index := (z : Int)
    properties := e.properties }

/-- The `forEach` push loop of `handleAISuggest` (App.tsx lines
158-171) on the first page; `env k` supplies the `Date.now()` and
`Math.random()` values observed at the k-th iteration. -/
def aiAddElems (env : Nat → Nat × String) : Nat → DesignPage → List AIElem → DesignPage
  | _, pg, [] => pg
  | k, pg, e :: es =>
    aiAddElems env (k + 1)
      { pg with elements := pg.elements ++ [mkAIElement (env k) pg.elements.length e] } es

/-- `handleAISuggest`'s ingestion of a successful AI response (App.tsx
lines 156-173): append the generated elements to page 0 of the design.
A design with no pages would throw in TypeScript; it is modelled as
unchanged. -/
def aiSuggestAdd (env : Nat → Nat × String) (d : Design) (elems : List AIElem) : Design :=
  match d.pages with
  | [] => d
  | pg :: rest => { d with pages := aiAddElems env 0 pg elems :: rest }

/-- The query parameters of the extract call. -/
structure LearnParams where
  ai_detect : Bool
  ai_model : String
  imgsz : Nat
  tile_size : Nat
  tile_overlap : Nat
deriving DecidableEq

/-- The parameters `handleLearnFromPDF` sends to `/api/ai/learn`
(App.tsx lines 91-97). -/
def handleLearnFromPDFParams : LearnParams :=
  { ai_detect := true, ai_model := "both", imgsz := 1536, tile_size := 640, tile_overlap := 160 }

/-- The documented default of the `tile_size` extract parameter
(AI_README.md line 69: "SAHI slice size (default 640)"). -/
def apiDefault_tile_size : Nat := 640

/-- The documented default of the `tile_overlap` extract parameter
(AI_README.md line 70: "SAHI overlap (default 100)"). -/
def apiDefault_tile_overlap : Nat := 100

/-! ## Concrete test vectors -/

/-- A concrete engine configuration: 1000x1000 page, merge and
duplicate thresholds 0.6, grounding and corroboration thresholds 0.5,
top margin band 20 percent. -/
def exCfg : Config :=
  { pageW := 1000, pageH := 1000, mergeThr := mkRat 6 10, groundThr := mkRat 1 2,
    dupThr := mkRat 6 10, corrThr := mkRat 1 2, topFrac := mkRat 1 5 }

/-- A ground-truth rectangle primitive at mid page. -/
def exRect : Primitive :=
  { kind := PrimKind.rectangle, bbox := { x := 100, y := 500, w := 200, h := 100 } }

/-- A ground-truth line primitive near the page bottom. -/
def exLine : Primitive :=
  { kind := PrimKind.line, bbox := { x := 0, y := 980, w := 1000, h := 2 } }

/-- A checkbox-group claim at mid page (y at 50 percent of the page
height), overlapping `exRect` tightly. -/
def exClaimLow : SClaim :=
  { kind := SKind.checkbox_group, box := { x := 102, y := 502, w := 196, h := 96 },
    label := "days" }

/-- A checkbox-group claim in the top margin band (y at 5 percent of
the page height). -/
def exClaimTop : SClaim :=
  { kind := SKind.checkbox_group, box := { x := 100, y := 50, w := 200, h := 100 },
    label := "phantom" }

/-- A semantic payload holding the single claim `exClaimLow`. -/
def exPayload : SemPayload :=
  { claims := [exClaimLow], header_title := none }

/-- A raw tile detection whose remapped box tightly overlaps `exRect`. -/
def exTd : TileDet :=
  { tileOx := 0, tileOy := 0, box := { x := 98, y := 498, w := 204, h := 104 },
    cls := GClass.table, conf := mkRat 8 10 }

/-- A page input whose semantic detector timed out. -/
def exInp : PageInput :=
  { prims := [exRect], tdets := [exTd], sem := Except.error DetErr.timeout }

/-- The single grid block extracted from `exInp`. -/
def exBlk : Block :=
  { id := "block_0_0", type := BlockType.grid,
    bbox := { x := 98, y := 498, w := 204, h := 104 }, page_index := 0,
    provenance := [Provenance.det (remap exTd)] }

/-- A tile detection touching the right edge of the first tile of a
640-pixel tiling. -/
def exTileA : TileDet :=
  { tileOx := 0, tileOy := 0, box := { x := 630, y := 100, w := 10, h := 19 },
    cls := GClass.table, conf := mkRat 8 10 }

/-- A detection of the same object seen from the adjacent tile (page
offset 480), remapping to a box with IoU 0.9 against `exTileA`'s. -/
def exTileB : TileDet :=
  { tileOx := 480, tileOy := 0, box := { x := 150, y := 101, w := 10, h := 19 },
    cls := GClass.table, conf := mkRat 7 10 }

/-- A concrete design element. -/
def exEl : DesignElement :=
  { id := "rect-1", type := ElementType.rectangle, x := 100, y := 100, width := 50,
    height := 50, rotation := 0, z_index := 0,
    properties := [("fill", "red"), ("stroke", "black")] }

/-- A second concrete design element. -/
def exEl2 : DesignElement :=
  { id := "rect-2", type := ElementType.rectangle, x := 10, y := 10, width := 5,
    height := 5, rotation := 0, z_index := 1, properties := [] }

/-- A concrete design page holding `exEl` and `exEl2`. -/
def exPage : DesignPage :=
  { page_number := 1, elements := [exEl, exEl2], background_color := "#ffffff" }

/-- A concrete one-page design holding `exPage`. -/
def exDesign : Design :=
  { id := some "design-1", name := "Test Design", page_width := 432, page_height := 648,
    pages := [exPage],
    created_at := none, updated_at := none, metadata := [] }

/-- A concrete store state holding `exDesign` with both elements
selected. -/
def exState : StoreState :=
  { design := some exDesign, currentPage := 0, selectedElements := ["rect-2", "rect-1"],
    activeTool := Tool.select, history := [exDesign], historyIndex := 0 }

/-- A concrete update: move the element and change one property key. -/
def exUpd : ElementUpdate :=
  { x := some 200, properties := some [("fill", "blue")] }

/-- A concrete AI response element. -/
def exAI : AIElem :=
  { type := ElementType.text, x := 36, y := 36, width := 360, height := 40,
    properties := [("text", "Title")] }

/-- An environment observing `Date.now() = 1000` and
`Math.random() = 0.5`. -/
def exEnvA : Nat → Nat × String := fun _ => (1000, "0.5")

/-- An environment observing `Date.now() = 1001` and
`Math.random() = 0.5`: one millisecond later. -/
def exEnvB : Nat → Nat × String := fun _ => (1001, "0.5")

/-- An environment agreeing with `exEnvA` at index 0 only. -/
def exEnvC : Nat → Nat × String := fun k => if k = 0 then (1000, "0.5") else (99, "x")

/-! ## Bridging and helper lemmas -/

theorem iouGeB_iff (t : ℚ) (a b : Box) : iouGeB t a b = true ↔ t ≤ iouQ a b := by
  unfold iouGeB iouQ
  by_cases h : unionArea a b ≤ 0
  · simp [h]
  · have hu : (0 : ℤ) < unionArea a b := not_le.mp h
    have huQ : (0 : ℚ) < (unionArea a b : ℚ) := by exact_mod_cast hu
    have hd : (0 : ℚ) < (t.den : ℚ) := by exact_mod_cast t.den_pos
    have hden : (t.den : ℚ) ≠ 0 := ne_of_gt hd
    have htd : (t.num : ℚ) = t * (t.den : ℚ) := (div_eq_iff hden).mp (Rat.num_div_den t)
    have ht2 : t * (unionArea a b : ℚ) =
        ((t.num : ℚ) * (unionArea a b : ℚ)) / (t.den : ℚ) := by
      rw [htd, mul_comm t ((t.den : ℚ)), mul_assoc, mul_div_cancel_left₀ _ hden]
    simp only [if_neg h, decide_eq_true_eq]
    rw [le_div_iff₀ huQ, ht2, div_le_iff₀ hd]
    constructor
    · intro hh
      exact_mod_cast hh
    · intro hh
      exact_mod_cast hh

theorem iouGtB_iff (t : ℚ) (a b : Box) : iouGtB t a b = true ↔ t < iouQ a b := by
  unfold iouGtB iouQ
  by_cases h : unionArea a b ≤ 0
  · simp [h]
  · have hu : (0 : ℤ) < unionArea a b := not_le.mp h
    have huQ : (0 : ℚ) < (unionArea a b : ℚ) := by exact_mod_cast hu
    have hd : (0 : ℚ) < (t.den : ℚ) := by exact_mod_cast t.den_pos
    have hden : (t.den : ℚ) ≠ 0 := ne_of_gt hd
    have htd : (t.num : ℚ) = t * (t.den : ℚ) := (div_eq_iff hden).mp (Rat.num_div_den t)
    have ht2 : t * (unionArea a b : ℚ) =
        ((t.num : ℚ) * (unionArea a b : ℚ)) / (t.den : ℚ) := by
      rw [htd, mul_comm t ((t.den : ℚ)), mul_assoc, mul_div_cancel_left₀ _ hden]
    simp only [if_neg h, decide_eq_true_eq]
    rw [lt_div_iff₀ huQ, ht2, div_lt_iff₀ hd]
    constructor
    · intro hh
      exact_mod_cast hh
    · intro hh
      exact_mod_cast hh

theorem inTopBand_iff (cfg : Config) (b : Box) :
    inTopBand cfg b = true ↔ (b.y : ℚ) < cfg.topFrac * (cfg.pageH : ℚ) := by
  unfold inTopBand
  have hd : (0 : ℚ) < (cfg.topFrac.den : ℚ) := by exact_mod_cast cfg.topFrac.den_pos
  have hden : (cfg.topFrac.den : ℚ) ≠ 0 := ne_of_gt hd
  have htd : (cfg.topFrac.num : ℚ) = cfg.topFrac * (cfg.topFrac.den : ℚ) :=
    (div_eq_iff hden).mp (Rat.num_div_den cfg.topFrac)
  have ht2 : cfg.topFrac * (cfg.pageH : ℚ) =
      ((cfg.topFrac.num : ℚ) * (cfg.pageH : ℚ)) / (cfg.topFrac.den : ℚ) := by
    rw [htd, mul_comm cfg.topFrac ((cfg.topFrac.den : ℚ)), mul_assoc,
      mul_div_cancel_left₀ _ hden]
  simp only [decide_eq_true_eq]
  rw [ht2, lt_div_iff₀ hd]
  constructor
  · intro hh
    exact_mod_cast hh
  · intro hh
    exact_mod_cast hh

theorem interLen_comm (a la b lb : ℤ) : interLen a la b lb = interLen b lb a la := by
  unfold interLen
  rw [min_comm, max_comm a b]

theorem interArea_comm (a b : Box) : interArea a b = interArea b a := by
  unfold interArea
  rw [interLen_comm, interLen_comm a.y a.h b.y b.h]

theorem unionArea_comm (a b : Box) : unionArea a b = unionArea b a := by
  unfold unionArea
  rw [interArea_comm]
  ring_nf

theorem iouGeB_comm (t : ℚ) (a b : Box) : iouGeB t a b = iouGeB t b a := by
  unfold iouGeB
  rw [unionArea_comm, interArea_comm]

theorem nmsGo_subset (thr : ℚ) :
    ∀ (fuel : Nat) (l : List Detection) (d : Detection), d ∈ nmsGo thr fuel l → d ∈ l := by
  intro fuel
  induction fuel with
  | zero =>
    intro l d hd
    cases l <;> simp [nmsGo] at hd
  | succ n ih =>
    intro l d hd
    cases l with
    | nil => simp [nmsGo] at hd
    | cons e rest =>
      simp only [nmsGo, List.mem_cons] at hd
      rcases hd with rfl | hd
      · exact List.mem_cons_self _ _
      · exact List.mem_cons_of_mem _ (List.mem_of_mem_filter (ih _ _ hd))

theorem resolveOverlap_subset (thr : ℚ) :
    ∀ (fuel : Nat) (l : List Block) (b : Block), b ∈ resolveOverlap thr fuel l → b ∈ l := by
  intro fuel
  induction fuel with
  | zero =>
    intro l b hb
    cases l <;> simp [resolveOverlap] at hb
  | succ n ih =>
    intro l b hb
    cases l with
    | nil => simp [resolveOverlap] at hb
    | cons e rest =>
      simp only [resolveOverlap, List.mem_cons] at hb
      rcases hb with rfl | hb
      · exact List.mem_cons_self _ _
      · exact List.mem_cons_of_mem _ (List.mem_of_mem_filter (ih _ _ hb))

theorem assignIds_mem (page : Nat) :
    ∀ (l : List Block) (i : Nat) (b : Block), b ∈ assignIds page i l →
      ∃ b₀ ∈ l, b.type = b₀.type ∧ b.bbox = b₀.bbox ∧ b.provenance = b₀.provenance := by
  intro l
  induction l with
  | nil =>
    intro i b hb
    simp [assignIds] at hb
  | cons x xs ih =>
    intro i b hb
    simp only [assignIds, List.mem_cons] at hb
    rcases hb with rfl | hb
    · exact ⟨x, List.mem_cons_self _ _, rfl, rfl, rfl⟩
    · rcases ih (i + 1) b hb with ⟨b₀, hmem, h1, h2, h3⟩
      exact ⟨b₀, List.mem_cons_of_mem _ hmem, h1, h2, h3⟩

theorem updateFirst_of_none (p : DesignElement → Bool) (f : DesignElement → DesignElement) :
    ∀ l : List DesignElement, (∀ e ∈ l, p e = false) → updateFirst p f l = l := by
  intro l
  induction l with
  | nil => intro _; rfl
  | cons x xs ih =>
    intro hall
    have hx : p x = false := hall x (List.mem_cons_self _ _)
    simp only [updateFirst, hx, Bool.false_eq_true, if_false]
    rw [ih (fun e he => hall e (List.mem_cons_of_mem _ he))]

theorem updateFirst_eq_set (p : DesignElement → Bool) (f : DesignElement → DesignElement) :
    ∀ (l : List DesignElement) (i : Nat) (e₀ : DesignElement),
      l[i]? = some e₀ → p e₀ = true →
      (∀ j e, j < i → l[j]? = some e → p e = false) →
      updateFirst p f l = l.set i (f e₀) := by
  intro l
  induction l with
  | nil =>
    intro i e₀ hget
    simp at hget
  | cons x xs ih =>
    intro i e₀ hget hp hfirst
    cases i with
    | zero =>
      have hx : x = e₀ := by simpa using hget
      subst hx
      simp only [updateFirst, hp, if_true, List.set]
    | succ j =>
      have hx : p x = false := hfirst 0 x (Nat.succ_pos j) (by simp)
      simp only [updateFirst, hx, Bool.false_eq_true, if_false, List.set]
      have hget' : xs[j]? = some e₀ := by simpa using hget
      have hfirst' : ∀ k e, k < j → xs[k]? = some e → p e = false := by
        intro k e hk hke
        exact hfirst (k + 1) e (Nat.succ_lt_succ hk) (by simpa using hke)
      rw [ih j e₀ hget' hp hfirst']

theorem lookupRec_mergeRec (k : String) (cur upd : List (String × String)) :
    lookupRec k (mergeRec cur upd) =
      ((lookupRec k upd).elim (lookupRec k cur) some) := by
  unfold mergeRec
  induction upd with
  | nil => simp [lookupRec]
  | cons kv rest ih =>
    by_cases hkv : (kv.1 == k) = true
    · simp [lookupRec, List.find?, hkv]
    · simp only [List.cons_append]
      simp [lookupRec, List.find?, hkv] at ih ⊢
      exact ih

theorem saveToHistory_design (s : StoreState) : (saveToHistory s).design = s.design := by
  unfold saveToHistory
  cases h : s.design <;> simp [h]

theorem saveToHistory_selected (s : StoreState) :
    (saveToHistory s).selectedElements = s.selectedElements := by
  unfold saveToHistory
  cases h : s.design <;> simp [h]

theorem saveToHistory_inv (s : StoreState) (d : Design) (hd : s.design = some d)
    (hlen : s.history.length ≤ 50) :
    historyInv (saveToHistory s) ∧ (saveToHistory s).history.getLast? = some d := by
  unfold saveToHistory
  rw [hd]
  simp only
  set T := s.history.take (s.historyIndex + 1).toNat with hT
  have hTlen : T.length ≤ 50 := le_trans (by simp [hT, List.length_take_le]) hlen
  by_cases hlong : 50 < (T ++ [d]).length
  · have hlen51 : (T ++ [d]).length = 51 := by
      simp only [List.length_append, List.length_singleton] at hlong ⊢
      omega
    have hTne : 1 ≤ T.length := by
      simp only [List.length_append, List.length_singleton] at hlen51
      omega
    constructor
    · constructor
      · simp [hlong, List.length_drop, hlen51]
      · simp [hlong, List.length_drop, hlen51, historyInv]
    · simp only [hlong, if_true]
      rw [List.drop_append_of_le_length hTne, List.getLast?_concat]
  · constructor
    · constructor
      · simp only [hlong, if_false]
        simp only [List.length_append, List.length_singleton] at hlong ⊢
        omega
      · simp [hlong, historyInv]
    · simp only [hlong, if_false, List.getLast?_concat]

theorem aiAddElems_congr (env env' : Nat → Nat × String) :
    ∀ (es : List AIElem) (k : Nat) (pg : DesignPage),
      (∀ j, j < es.length → env (k + j) = env' (k + j)) →
      aiAddElems env k pg es = aiAddElems env' k pg es := by
  intro es
  induction es with
  | nil => intro k pg _; rfl
  | cons e rest ih =>
    intro k pg h
    have h0 : env k = env' k := by
      have := h 0 (by simp)
      simpa using this
    simp only [aiAddElems, h0]
    apply ih (k + 1)
    intro j hj
    have h2 := h (j + 1) (by simpa using Nat.succ_lt_succ hj)
    have hkj : k + (j + 1) = k + 1 + j := by omega
    rwa [hkj] at h2

/-! ## Claims -/

/-- C10: for every design and id, `deleteElement` removes exactly the
elements of the current page whose id equals the given id, and always
resets `selectedElements` to the empty list, leaving the other pages
unchanged — regardless of what was selected before. -/
theorem deleteElement_removes_matching_and_clears_selection
    (s : StoreState) (d : Design) (pg : DesignPage) (eid : String)
    (hd : s.design = some d) (hp : d.pages[s.currentPage]? = some pg) :
    (deleteElement s eid).selectedElements = [] ∧
    ∃ d', (deleteElement s eid).design = some d' ∧
      d'.pages[s.currentPage]? =
        some { pg with elements := pg.elements.filter (fun e => e.id != eid) } ∧
      (∀ e, e ∈ pg.elements.filter (fun e => e.id != eid) ↔
        (e ∈ pg.elements ∧ ¬ e.id = eid)) ∧
      (∀ j, j ≠ s.currentPage → d'.pages[j]? = d.pages[j]?) := by
  have hlt : s.currentPage < d.pages.length := by
    by_contra hge
    rw [List.getElem?_eq_none (Nat.le_of_not_lt hge)] at hp
    exact Option.noConfusion hp
  simp only [deleteElement, hd, hp]
  constructor
  · rw [saveToHistory_selected]
  · refine ⟨_, saveToHistory_design _, ?_, ?_, ?_⟩
    · exact List.getElem?_set_self hlt
    · intro e
      rw [List.mem_filter]
      simp [bne_iff_ne]
    · intro j hj
      exact List.getElem?_set_ne (fun hc => hj hc.symm)

/-- C10 witness: deleting `rect-1` from the concrete state empties the
selection (which held both elements) and removes exactly that element. -/
theorem deleteElement_removes_matching_and_clears_selection_witness :
    (deleteElement exState "rect-1").selectedElements = [] ∧
    ∃ d', (deleteElement exState "rect-1").design = some d' ∧
      d'.pages[exState.currentPage]? =
        some { exPage with elements := exPage.elements.filter (fun e => e.id != "rect-1") } ∧
      (∀ e, e ∈ exPage.elements.filter (fun e => e.id != "rect-1") ↔
        (e ∈ exPage.elements ∧ ¬ e.id = "rect-1")) ∧
      (∀ j, j ≠ exState.currentPage → d'.pages[j]? = exDesign.pages[j]?) :=
  deleteElement_removes_matching_and_clears_selection exState exDesign exPage "rect-1" rfl rfl

/-- C8: after every snapshotting design-store action (`setDesign`;
`addElement`, `updateElement` on an existing element and `deleteElement`,
each on a state holding a design and a valid current page), the undo
history holds at most 50 snapshots and `historyIndex` equals
`history.length - 1`; when the history is at capacity, the oldest
snapshot is dropped. -/
theorem history_limit_after_snapshot (s : StoreState) (hlen : s.history.length ≤ 50) :
    (∀ d : Design, historyInv (setDesign s d)) ∧
    (∀ (d : Design) (pg : DesignPage) (el : DesignElement),
      s.design = some d → d.pages[s.currentPage]? = some pg →
      historyInv (addElement s el)) ∧
    (∀ (d : Design) (pg : DesignPage) (eid : String) (u : ElementUpdate),
      s.design = some d → d.pages[s.currentPage]? = some pg →
      pg.elements.any (fun e => e.id == eid) = true →
      historyInv (updateElement s eid u)) ∧
    (∀ (d : Design) (pg : DesignPage) (eid : String),
      s.design = some d → d.pages[s.currentPage]? = some pg →
      historyInv (deleteElement s eid)) ∧
    (∀ d : Design, s.historyIndex = 49 → s.history.length = 50 →
      (setDesign s d).history = s.history.drop 1 ++ [d]) := by
  refine ⟨?_, ?_, ?_, ?_, ?_⟩
  · intro d
    exact (saveToHistory_inv { s with design := some d, currentPage := 0 } d rfl hlen).1
  · intro d pg el hd hp
    simp only [addElement, hd, hp]
    exact (saveToHistory_inv _ _ rfl (by exact hlen)).1
  · intro d pg eid u hd hp hany
    simp only [updateElement, hd, hp, hany, if_true]
    exact (saveToHistory_inv _ _ rfl (by exact hlen)).1
  · intro d pg eid hd hp
    simp only [deleteElement, hd, hp]
    exact (saveToHistory_inv _ _ rfl (by exact hlen)).1
  · intro d hidx hlen50
    unfold setDesign saveToHistory
    simp only [hidx, hlen50]
    have htake : s.history.take ((49 : Int) + 1).toNat = s.history := by
      apply List.take_of_length_le
      omega
    rw [htake]
    have hlong : 50 < (s.history ++ [d]).length := by
      simp [hlen50]
    rw [if_pos hlong, List.drop_append_of_le_length (by omega)]

/-- C8 witness: snapshotting actions on the concrete state keep the
history invariant. -/
theorem history_limit_after_snapshot_witness :
    historyInv (setDesign exState exDesign) ∧ historyInv (deleteElement exState "rect-1") := by
  have h := history_limit_after_snapshot exState (by decide)
  exact ⟨h.1 exDesign, h.2.2.2.1 exDesign exPage "rect-1" rfl rfl⟩

/-- C9: when the current page holds an element with the given id,
`updateElement` replaces exactly the first such element by the merge of
the listed top-level fields, merging `properties` key by key (keys
absent from the update are preserved), and leaves every other element,
every other page and the selection unchanged; when no element has the
id, the whole state is unchanged. -/
theorem updateElement_updates_only_target
    (s : StoreState) (d : Design) (pg : DesignPage) (eid : String) (u : ElementUpdate)
    (hd : s.design = some d) (hp : d.pages[s.currentPage]? = some pg) :
    ((∀ e ∈ pg.elements, ¬ e.id = eid) → updateElement s eid u = s) ∧
    (∀ (i : Nat) (e₀ : DesignElement), pg.elements[i]? = some e₀ → e₀.id = eid →
      (∀ j e, j < i → pg.elements[j]? = some e → ¬ e.id = eid) →
      ∃ d', (updateElement s eid u).design = some d' ∧
        (updateElement s eid u).selectedElements = s.selectedElements ∧
        d'.pages[s.currentPage]? =
          some { pg with elements := pg.elements.set i (applyUpdate e₀ u) } ∧
        (∀ j, j ≠ s.currentPage → d'.pages[j]? = d.pages[j]?)) ∧
    (∀ (e : DesignElement) (k : String),
      (u.properties = none → (applyUpdate e u).properties = e.properties) ∧
      (∀ ps, u.properties = some ps →
        lookupRec k (applyUpdate e u).properties =
          ((lookupRec k ps).elim (lookupRec k e.properties) some))) := by
  have hlt : s.currentPage < d.pages.length := by
    by_contra hge
    rw [List.getElem?_eq_none (Nat.le_of_not_lt hge)] at hp
    exact Option.noConfusion hp
  refine ⟨?_, ?_, ?_⟩
  · intro hnone
    have hany : pg.elements.any (fun e => e.id == eid) = false := by
      rw [List.any_eq_false]
      intro e he
      simpa using hnone e he
    simp only [updateElement, hd, hp, hany, Bool.false_eq_true, if_false]
  · intro i e₀ hget hid hfirst
    have hmem : e₀ ∈ pg.elements := List.getElem?_mem hget
    have hany : pg.elements.any (fun e => e.id == eid) = true := by
      rw [List.any_eq_true]
      exact ⟨e₀, hmem, by simp [hid]⟩
    have hset : updateFirst (fun e => e.id == eid) (fun e => applyUpdate e u) pg.elements =
        pg.elements.set i (applyUpdate e₀ u) :=
      updateFirst_eq_set _ _ pg.elements i e₀ hget (by simp [hid])
        (fun j e hj hje => by simpa using hfirst j e hj hje)
    simp only [updateElement, hd, hp, hany, if_true, hset]
    refine ⟨_, saveToHistory_design _, saveToHistory_selected _, ?_, ?_⟩
    · exact List.getElem?_set_self hlt
    · intro j hj
      exact List.getElem?_set_ne (fun hc => hj hc.symm)
  · intro e k
    constructor
    · intro hnone
      simp [applyUpdate, hnone]
    · intro ps hps
      simp only [applyUpdate, hps]
      exact lookupRec_mergeRec k e.properties ps

/-- C9 witness: updating `rect-1` with a move and one property change
on the concrete state; updating a missing id leaves the state
unchanged; the untouched property key is preserved and the updated key
takes the new value. -/
theorem updateElement_updates_only_target_witness :
    updateElement exState "missing" exUpd = exState ∧
    (∃ d', (updateElement exState "rect-1" exUpd).design = some d' ∧
      (updateElement exState "rect-1" exUpd).selectedElements = exState.selectedElements ∧
      d'.pages[exState.currentPage]? =
        some { exPage with elements := exPage.elements.set 0 (applyUpdate exEl exUpd) } ∧
      (∀ j, j ≠ exState.currentPage → d'.pages[j]? = exDesign.pages[j]?)) ∧
    lookupRec "stroke" (applyUpdate exEl exUpd).properties = some "black" ∧
    lookupRec "fill" (applyUpdate exEl exUpd).properties = some "blue" := by
  refine ⟨?_, ?_, ?_, ?_⟩
  · exact (updateElement_updates_only_target exState exDesign exPage "missing" exUpd
      rfl rfl).1 (by decide)
  · exact (updateElement_updates_only_target exState exDesign exPage "rect-1" exUpd
      rfl rfl).2.1 0 exEl rfl rfl (fun j e hj _ => absurd hj (Nat.not_lt_zero j))
  · decide
  · decide

/-- C6 counterexample: running the AI-suggest ingestion twice on the
identical design and identical AI response, one millisecond apart,
yields different element ids, so the outputs are not byte-identical. -/
theorem ai_ids_differ_across_runs :
    aiSuggestAdd exEnvA exDesign [exAI] ≠ aiSuggestAdd exEnvB exDesign [exAI] := by
  decide

/-- C6 (amended): ids of AI-ingested elements interpolate `Date.now()`
and `Math.random()`, so repeated runs on unchanged input coincide
exactly when the observed time and random draws coincide: the ingestion
is a deterministic function of the response and those draws, and there
are environments differing only in the observed time that produce
different outputs. -/
theorem ai_ingestion_deterministic_only_in_env :
    (∀ (env env' : Nat → Nat × String) (d : Design) (elems : List AIElem),
      (∀ k, k < elems.length → env k = env' k) →
      aiSuggestAdd env d elems = aiSuggestAdd env' d elems) ∧
    (∃ (env env' : Nat → Nat × String) (d : Design) (elems : List AIElem),
      aiSuggestAdd env d elems ≠ aiSuggestAdd env' d elems) := by
  constructor
  · intro env env' d elems hagree
    cases hpg : d.pages with
    | nil => simp [aiSuggestAdd, hpg]
    | cons pg rest =>
      simp only [aiSuggestAdd, hpg]
      rw [aiAddElems_congr env env' elems 0 pg (fun j hj => by simpa using hagree j hj)]
  · exact ⟨exEnvA, exEnvB, exDesign, [exAI], by decide⟩

/-- C6 witness: two environments that agree on the draws actually used
(the single element's) produce identical outputs even though they differ
elsewhere. -/
theorem ai_ingestion_deterministic_only_in_env_witness :
    aiSuggestAdd exEnvA exDesign [exAI] = aiSuggestAdd exEnvC exDesign [exAI] :=
  ai_ingestion_deterministic_only_in_env.1 exEnvA exEnvC exDesign [exAI]
    (fun k hk => by
      have hk0 : k = 0 := Nat.lt_one_iff.mp hk
      subst hk0
      rfl)

/-- C7 counterexample: the tile-overlap value sent by the editor's
learn-from-PDF call (160) differs from the documented API default
(100). -/
theorem learn_tile_overlap_ne_default :
    handleLearnFromPDFParams.tile_overlap ≠ apiDefault_tile_overlap := by
  decide

/-- C7 (amended): the editor's learn-from-PDF call passes every AI
parameter explicitly; its `tile_size` (640) equals the documented
default, but its `tile_overlap` is 160 while the documented API default
is 100, so the two code paths use different tile-overlap values. -/
theorem learn_params_vs_documented_defaults :
    handleLearnFromPDFParams.ai_detect = true ∧
    handleLearnFromPDFParams.ai_model = "both" ∧
    handleLearnFromPDFParams.tile_size = apiDefault_tile_size ∧
    handleLearnFromPDFParams.tile_overlap = 160 ∧
    apiDefault_tile_overlap = 100 :=
  ⟨rfl, rfl, rfl, rfl, rfl⟩

theorem detToBlock_provenance (cfg : Config) (dd : Detection) (b : Block)
    (h : detToBlock cfg dd = some b) : b.provenance = [Provenance.det dd] := by
  unfold detToBlock at h
  split at h
  · cases h
    rfl
  · split at h
    · cases h
      rfl
    · exact Option.noConfusion h
  · split at h
    · cases h
      rfl
    · cases h
      rfl
  · exact Option.noConfusion h

theorem fusePage_mem (cfg : Config) (page : Nat) (prims : List Primitive)
    (gdets : List Detection) (sem : Option SemPayload) (b : Block)
    (hb : b ∈ fusePage cfg page prims gdets sem) :
    ∃ b₀, b.type = b₀.type ∧ b.bbox = b₀.bbox ∧ b.provenance = b₀.provenance ∧
      groundedB cfg prims b₀.bbox = true ∧
      ((∃ dd, dd ∈ gdets ∧ detToBlock cfg dd = some b₀) ∨
       (∃ pl pr, sem = some pl ∧
         pr ∈ prunePairs cfg gdets (groundClaims cfg prims pl.claims) ∧
         b₀ = pairToBlock pr)) := by
  simp only [fusePage] at hb
  obtain ⟨b₀, hb₀, ht, hbb, hpv⟩ := assignIds_mem page _ 0 b hb
  have h1 := resolveOverlap_subset cfg.dupThr _ _ b₀ hb₀
  have h2 := List.mem_filter.mp h1
  refine ⟨b₀, ht, hbb, hpv, h2.2, ?_⟩
  rcases List.mem_append.mp h2.1 with hL | hR
  · rcases List.mem_filterMap.mp hL with ⟨dd, hdd, hsome⟩
    exact Or.inl ⟨dd, hdd, hsome⟩
  · cases sem with
    | none => simp at hR
    | some pl =>
      rcases List.mem_map.mp hR with ⟨pr, hpr, hprb⟩
      exact Or.inr ⟨pl, pr, rfl, hpr, hprb.symm⟩

theorem processBatchFrom_length (cfg : Config) :
    ∀ (inps : List PageInput) (k : Nat), (processBatchFrom cfg k inps).length = inps.length := by
  intro inps
  induction inps with
  | nil => intro k; rfl
  | cons inp rest ih =>
    intro k
    simp [processBatchFrom, ih (k + 1)]

theorem processBatchFrom_getElem (cfg : Config) :
    ∀ (inps : List PageInput) (k i : Nat) (inp : PageInput), inps[i]? = some inp →
      (processBatchFrom cfg k inps)[i]? = some (processPage cfg (k + i) inp) := by
  intro inps
  induction inps with
  | nil =>
    intro k i inp hi
    simp at hi
  | cons hd rest ih =>
    intro k i inp hi
    cases i with
    | zero =>
      have : hd = inp := by simpa using hi
      subst this
      simp [processBatchFrom]
    | succ j =>
      have hj : rest[j]? = some inp := by simpa using hi
      have := ih (k + 1) j inp hj
      have hadd : k + 1 + j = k + (j + 1) := by omega
      rw [hadd] at this
      simpa [processBatchFrom] using this

/-- C1: every Block emitted for a page is grounded: some ground-truth
Primitive of the page has IoU at or above the grounding threshold with
the Block's bbox (so a Detection alone never suffices as provenance). -/
theorem emitted_blocks_are_grounded (cfg : Config) (page : Nat) (inp : PageInput)
    (b : Block) (hb : b ∈ processPage cfg page inp) :
    ∃ p ∈ inp.prims, cfg.groundThr ≤ iouQ p.bbox b.bbox := by
  have hb' : ∃ gdets sem, b ∈ fusePage cfg page inp.prims gdets sem := by
    unfold processPage at hb
    cases hs : inp.sem with
    | ok pl =>
      rw [hs] at hb
      exact ⟨_, _, hb⟩
    | error e =>
      rw [hs] at hb
      exact ⟨_, _, hb⟩
  obtain ⟨gdets, sem, hbf⟩ := hb'
  obtain ⟨b₀, _, hbb, _, hg, _⟩ := fusePage_mem cfg page inp.prims gdets sem b hbf
  obtain ⟨p, hp, hiou⟩ := List.any_eq_true.mp hg
  refine ⟨p, hp, ?_⟩
  rw [hbb]
  exact (iouGeB_iff _ _ _).mp hiou

/-- C1 witness: the concrete page `exInp` emits exactly the grid block
`exBlk`, and it is grounded in the rectangle primitive. -/
theorem emitted_blocks_are_grounded_witness :
    exBlk ∈ processPage exCfg 0 exInp ∧
    ∃ p ∈ exInp.prims, exCfg.groundThr ≤ iouQ p.bbox exBlk.bbox :=
  ⟨by decide, emitted_blocks_are_grounded exCfg 0 exInp exBlk (by decide)⟩

/-- C2: a semantic claim with no rectangle Primitive whose IoU with its
box exceeds the grounding threshold is discarded by grounding, and no
Block of the fused output is derived from it; a claim that does ground
has its box replaced by the grounded Primitive's exact box. -/
theorem ungrounded_semantic_claims_discarded
    (cfg : Config) (page : Nat) (prims : List Primitive) (gdets : List Detection)
    (pl : SemPayload) (c : SClaim)
    (hc : ∀ p ∈ prims, p.kind = PrimKind.rectangle → iouQ p.bbox c.box ≤ cfg.groundThr) :
    groundClaim cfg prims c = none ∧
    (∀ c₂ c₂', groundClaim cfg prims c₂ = some c₂' →
      ∃ p ∈ prims, p.kind = PrimKind.rectangle ∧ cfg.groundThr < iouQ p.bbox c₂.box ∧
        c₂' = { c₂ with box := p.bbox }) ∧
    (∀ b ∈ fusePage cfg page prims gdets (some pl), Provenance.sem c ∉ b.provenance) := by
  have hnone : groundClaim cfg prims c = none := by
    have hfind : prims.find?
        (fun p => p.kind == PrimKind.rectangle && iouGtB cfg.groundThr p.bbox c.box) = none := by
      rw [List.find?_eq_none]
      intro p hp hcontra
      rw [Bool.and_eq_true] at hcontra
      have hk : p.kind = PrimKind.rectangle := by simpa using hcontra.1
      have hgt : cfg.groundThr < iouQ p.bbox c.box := (iouGtB_iff _ _ _).mp hcontra.2
      exact absurd hgt (not_lt.mpr (hc p hp hk))
    unfold groundClaim
    rw [hfind]
  refine ⟨hnone, ?_, ?_⟩
  · intro c₂ c₂' hsome
    unfold groundClaim at hsome
    cases hfind : prims.find?
        (fun p => p.kind == PrimKind.rectangle && iouGtB cfg.groundThr p.bbox c₂.box) with
    | none =>
      rw [hfind] at hsome
      exact Option.noConfusion hsome
    | some p =>
      rw [hfind] at hsome
      have hmem := List.mem_of_find?_eq_some hfind
      have hpred := List.find?_some hfind
      rw [Bool.and_eq_true] at hpred
      have hk : p.kind = PrimKind.rectangle := by simpa using hpred.1
      have hgt := (iouGtB_iff _ _ _).mp hpred.2
      exact ⟨p, hmem, hk, hgt, (Option.some.inj hsome).symm⟩
  · intro b hb hmemprov
    obtain ⟨b₀, _, _, hpv, _, hcases⟩ := fusePage_mem cfg page prims gdets (some pl) b hb
    rw [hpv] at hmemprov
    rcases hcases with ⟨dd, _, hdb⟩ | ⟨pl', pr, hpl, hpr, hb₀⟩
    · rw [detToBlock_provenance cfg dd b₀ hdb] at hmemprov
      simp at hmemprov
    · obtain rfl : pl = pl' := Option.some.inj hpl
      subst hb₀
      simp only [pairToBlock, List.mem_singleton] at hmemprov
      have hc1 : c = pr.1 := by
        have := Provenance.sem.inj hmemprov
        exact this
      have hpr' : pr ∈ groundClaims cfg prims pl.claims := List.mem_of_mem_filter hpr
      obtain ⟨c₀, hc₀, hmap⟩ := List.mem_filterMap.mp hpr'
      cases hg : groundClaim cfg prims c₀ with
      | none =>
        rw [hg] at hmap
        exact Option.noConfusion hmap
      | some cg =>
        rw [hg] at hmap
        have hpair : (c₀, cg) = pr := by simpa using hmap
        have hfst : c₀ = pr.1 := by rw [← hpair]
        have hgc : groundClaim cfg prims c = some cg := by
          rw [hc1, ← hfst]
          exact hg
        rw [hnone] at hgc
        exact Option.noConfusion hgc

/-- C2 witness: with only a line primitive on the page, the claim
`exClaimLow` does not ground and no fused Block is derived from it. -/
theorem ungrounded_semantic_claims_discarded_witness :
    groundClaim exCfg [exLine] exClaimLow = none ∧
    (∀ c₂ c₂', groundClaim exCfg [exLine] c₂ = some c₂' →
      ∃ p ∈ [exLine], p.kind = PrimKind.rectangle ∧
        exCfg.groundThr < iouQ p.bbox c₂.box ∧ c₂' = { c₂ with box := p.bbox }) ∧
    (∀ b ∈ fusePage exCfg 0 [exLine] [] (some exPayload),
      Provenance.sem exClaimLow ∉ b.provenance) :=
  ungrounded_semantic_claims_discarded exCfg 0 [exLine] [] exPayload exClaimLow
    (by
      intro p hp hk
      rcases List.mem_singleton.mp hp with rfl
      exact absurd hk (by decide))

/-- C3: a grounded checkbox or labeled-input claim whose box lies in the
top margin band is discarded by the position-based pruning unless the
geometric detector corroborates it; the same kind of claim outside the
band is kept. -/
theorem top_margin_pruning (cfg : Config) (gdets : List Detection)
    (prs : List (SClaim × SClaim)) (pr : SClaim × SClaim)
    (hk : pr.2.kind = SKind.checkbox_group ∨ pr.2.kind = SKind.labeled_input) :
    (inTopBand cfg pr.2.box = true → corroborated cfg gdets pr.2.box = false →
      pr ∉ prunePairs cfg gdets prs) ∧
    (pr ∈ prs → inTopBand cfg pr.2.box = false → pr ∈ prunePairs cfg gdets prs) := by
  have hkb : (pr.2.kind == SKind.checkbox_group || pr.2.kind == SKind.labeled_input) = true := by
    rcases hk with h | h <;> simp [h]
  constructor
  · intro htop hcorr hmem
    unfold prunePairs at hmem
    have hkeep := (List.mem_filter.mp hmem).2
    unfold keepClaim at hkeep
    rw [if_pos hkb] at hkeep
    rw [htop, hcorr] at hkeep
    simp at hkeep
  · intro hmem htop
    unfold prunePairs
    rw [List.mem_filter]
    refine ⟨hmem, ?_⟩
    unfold keepClaim
    rw [if_pos hkb, htop]
    simp

/-- C3 witness: the ungrounded top-band checkbox claim at 5 percent of
the page height is pruned; the grounded mid-page claim (at 50 percent,
box replaced by the matching rectangle primitive's box) is kept. -/
theorem top_margin_pruning_witness :
    ((exClaimTop, exClaimTop) ∉ prunePairs exCfg [] [(exClaimTop, exClaimTop)]) ∧
    ((exClaimLow, { exClaimLow with box := exRect.bbox }) ∈
      prunePairs exCfg [] (groundClaims exCfg [exRect] [exClaimLow])) := by
  constructor
  · exact (top_margin_pruning exCfg [] [(exClaimTop, exClaimTop)] (exClaimTop, exClaimTop)
      (Or.inl rfl)).1 (by decide) (by decide)
  · exact (top_margin_pruning exCfg [] (groundClaims exCfg [exRect] [exClaimLow])
      (exClaimLow, { exClaimLow with box := exRect.bbox }) (Or.inl rfl)).2
      (by decide) (by decide)

/-- C4: two detections (tile offsets arbitrary and possibly different,
so boundary-straddling duplicates are treated identically to same-tile
ones) whose remapped page-space boxes have IoU at or above the merge
threshold collapse into exactly one Detection, the one with the highest
confidence. -/
theorem tile_merge_collapses_duplicates (thr : ℚ) (t1 t2 : TileDet)
    (h : thr ≤ iouQ (remap t1).box (remap t2).box) :
    mergeDetections thr [remap t1, remap t2] =
      (if (remap t2).conf ≤ (remap t1).conf then [remap t1] else [remap t2]) ∧
    (mergeDetections thr [remap t1, remap t2]).length = 1 := by
  have hge : iouGeB thr (remap t1).box (remap t2).box = true := (iouGeB_iff _ _ _).mpr h
  have hge' : iouGeB thr (remap t2).box (remap t1).box = true := by
    rw [iouGeB_comm]
    exact hge
  have hmain : mergeDetections thr [remap t1, remap t2] =
      (if (remap t2).conf ≤ (remap t1).conf then [remap t1] else [remap t2]) := by
    by_cases hc : (remap t2).conf ≤ (remap t1).conf
    · simp [mergeDetections, sortByConf, insertByConf, hc, nmsGo, hge]
    · simp [mergeDetections, sortByConf, insertByConf, hc, nmsGo, hge']
  refine ⟨hmain, ?_⟩
  rw [hmain]
  by_cases hc : (remap t2).conf ≤ (remap t1).conf <;> simp [hc]

/-- C4 witness: the two concrete tile detections from adjacent tiles
(IoU 0.9 across the tile boundary) collapse to the single
higher-confidence box. -/
theorem tile_merge_collapses_duplicates_witness :
    mergeDetections exCfg.mergeThr [remap exTileA, remap exTileB] =
      (if (remap exTileB).conf ≤ (remap exTileA).conf
        then [remap exTileA] else [remap exTileB]) ∧
    (mergeDetections exCfg.mergeThr [remap exTileA, remap exTileB]).length = 1 :=
  tile_merge_collapses_duplicates exCfg.mergeThr exTileA exTileB
    ((iouGeB_iff _ _ _).mp (by decide))

/-- C5: when a page's semantic detector fails with a timeout or
unavailability, the page is not failed: its result equals geometric-only
fusion (grid/header blocks from the geometric detector and the
primitives alone, no semantic provenance anywhere), and the batch still
processes every page. -/
theorem semantic_failure_degrades_gracefully (cfg : Config) (inps : List PageInput)
    (i : Nat) (inp : PageInput) (e : DetErr)
    (hi : inps[i]? = some inp) (he : inp.sem = Except.error e)
    (_hkind : e = DetErr.timeout ∨ e = DetErr.unavailable) :
    (processBatch cfg inps).length = inps.length ∧
    (processBatch cfg inps)[i]? = some (processPage cfg i inp) ∧
    processPage cfg i inp =
      fusePage cfg i inp.prims (mergeDetections cfg.mergeThr (inp.tdets.map remap)) none ∧
    (∀ b ∈ processPage cfg i inp, ∀ pr ∈ b.provenance, ∀ c : SClaim,
      pr ≠ Provenance.sem c) := by
  have hgeom : processPage cfg i inp =
      fusePage cfg i inp.prims (mergeDetections cfg.mergeThr (inp.tdets.map remap)) none := by
    unfold processPage
    rw [he]
  refine ⟨processBatchFrom_length cfg inps 0, ?_, hgeom, ?_⟩
  · have := processBatchFrom_getElem cfg inps 0 i inp hi
    simpa using this
  · intro b hb pr hpr c hc
    rw [hgeom] at hb
    obtain ⟨b₀, _, _, hpv, _, hcases⟩ :=
      fusePage_mem cfg i inp.prims (mergeDetections cfg.mergeThr (inp.tdets.map remap)) none b hb
    rcases hcases with ⟨dd, _, hdb⟩ | ⟨pl, _, hpl, _, _⟩
    · rw [hpv, detToBlock_provenance cfg dd b₀ hdb] at hpr
      rw [hc] at hpr
      simp at hpr
    · exact Option.noConfusion hpl

/-- C5 witness: the concrete one-page batch whose semantic detector
timed out still yields the grid block from the geometric detector, and
the batch result covers the page. -/
theorem semantic_failure_degrades_gracefully_witness :
    (processBatch exCfg [exInp]).length = [exInp].length ∧
    (processBatch exCfg [exInp])[0]? = some (processPage exCfg 0 exInp) ∧
    processPage exCfg 0 exInp =
      fusePage exCfg 0 exInp.prims
        (mergeDetections exCfg.mergeThr (exInp.tdets.map remap)) none ∧
    (∀ b ∈ processPage exCfg 0 exInp, ∀ pr ∈ b.provenance, ∀ c : SClaim,
      pr ≠ Provenance.sem c) :=
  semantic_failure_degrades_gracefully exCfg [exInp] 0 exInp DetErr.timeout rfl rfl
    (Or.inl rfl)

end KDP
